import Mathlib

/-!
Shallow embedding, in Lean 4, of the QC repository: the OMERO quality-check
framework (`OMERO_BaseClasses.py`) and its concrete checks
(`OMERO_ContrastMeasure.py`, `OMERO_PowerSpectrum.py`,
`OMERO_SaturationCheck.py`).

The remote server, transport and numeric libraries are external collaborators;
what is embedded here is the repository's own logic: keyword validation and
query composition in `OMERO_Object.query`, the eligibility query and run loop
of `OMERO_QualityCheck`, the `autotag` and `_reconnect` decorators, and the
per-plane computations of the contrast and power-spectrum checks.

Python exceptions are modelled as values of an error type carried by `Except`;
machine floats are modelled as rationals.
-/

namespace QC

/-- Python exception outcomes that the embedded code can raise.  Each
constructor corresponds to one concrete `raise` site (or implicit exception)
in the source:

* `badNoqcType`      — `ValueError("Expected boolean value (True/False) with 'noqc' keyword")`
* `badDaterangeType` — `ValueError("Expected list type for 'daterange' parameter")`
* `unknownParameter` — `ValueError("Unknown query parameter: {key}")`
* `noParameters`     — `ValueError("No parameters to query.")`
* `nameError n`      — Python `NameError`: the identifier `n` is unbound
* `indexError`       — Python `IndexError` from `value[0]` on an empty list
* `typeError`        — Python `TypeError` from calling a method with an
                       unexpected keyword argument
* `connectionLost`   — the transport-level connection-lost exception -/
inductive PyErr where
  | badNoqcType
  | badDaterangeType
  | unknownParameter (key : String)
  | noParameters
  | nameError (n : String)
  | indexError
  | typeError
  | connectionLost
  deriving DecidableEq, Repr

/-- A Python value, as far as the validation code inspects it: the branches of
`OMERO_Object.query` only test `isinstance(value, bool)`,
`isinstance(value, list)` and `isinstance(value[i], datetime.datetime)`. -/
inductive PyVal where
  | bool (b : Bool)
  | str (s : String)
  | list (xs : List PyVal)
  | datetime (t : Int)

/-- Check whether the character list `n` is a prefix of `h`. -/
def prefixChars : List Char → List Char → Bool
  | [], _ => true
  | _ :: _, [] => false
  | a :: n, b :: h => a = b && prefixChars n h

/-- Check whether the character list `n` occurs contiguously inside `h`. -/
def subChars : List Char → List Char → Bool
  | n, h =>
    prefixChars n h ||
      match h with
      | [] => false
      | _ :: h => subChars n h

/-- Python's `needle in hay` on strings: substring containment (the empty
string is contained in every string). -/
def strIn (needle hay : String) : Bool :=
  subChars needle.toList hay.toList

/-- The five keyword names that the third branch of the validation loop in
`OMERO_Object.query` recognises by exact tuple membership
(`key in ('filename', 'plate', 'acquisition', 'with_tag', 'without_tag')`). -/
def textKeys : List String :=
  ["filename", "plate", "acquisition", "with_tag", "without_tag"]

/-- State threaded through the validation loop of `OMERO_Object.query`: the
`noqc` flag and the keys inserted into `parameters.map` so far. -/
structure ParseState where
  noqc : Bool
  pmap : List String
  deriving DecidableEq, Repr

/-- One iteration of the `for key,value in kwargs.items()` loop of
`OMERO_Object.query`.  Faithful to the source, including its slips:

* `key in ('noqc')` and `key in ('daterange')` test substring containment of
  `key` in the *string* `'noqc'` / `'daterange'` (the parentheses do not make
  a tuple);
* in the `daterange` branch, once `value` is a list, evaluating
  `isinstance(value[0], datetime.datetime)` first evaluates `value[0]`
  (raising `IndexError` on an empty list) and then the name
  `datetime` — which is never imported in `OMERO_BaseClasses.py`, so a
  `NameError` is raised. -/
def parseStep (st : ParseState) (kv : String × PyVal) : Except PyErr ParseState :=
  if strIn kv.1 "noqc" then
    match kv.2 with
    | .bool b => .ok ⟨b, st.pmap⟩
    | _ => .error .badNoqcType
  else if strIn kv.1 "daterange" then
    match kv.2 with
    | .list xs =>
      match xs with
      | [] => .error .indexError
      | _ :: _ => .error (.nameError "datetime")
    | _ => .error .badDaterangeType
  else if kv.1 ∈ textKeys then
    .ok ⟨st.noqc, st.pmap ++ [kv.1]⟩
  else
    .error (.unknownParameter kv.1)

/-- The whole validation loop of `OMERO_Object.query`, iterating `parseStep`
over the keyword arguments in order. -/
def parseLoop (st : ParseState) : List (String × PyVal) → Except PyErr ParseState
  | [] => .ok st
  | kv :: rest =>
    match parseStep st kv with
    | .error e => .error e
    | .ok st' => parseLoop st' rest

/-- Validation phase of `OMERO_Object.query`: run the keyword loop, then
raise `ValueError('No parameters to query.')` if `parameters.map` is empty. -/
def parseParams (criteria : List (String × PyVal)) : Except PyErr ParseState :=
  match parseLoop ⟨false, []⟩ criteria with
  | .error e => .error e
  | .ok st => if st.pmap.length = 0 then .error .noParameters else .ok st

/-- The sub-query returned by `OMERO_Object.__noqc_query`. -/
def noqc_subquery : String :=
  "select image from Image image left outer join image.annotationLinks as annotations left outer join annotations.child as annotation where annotation.textValue like '%noqc'"

/-- The sub-query returned by `OMERO_Object.__filename_query`. -/
def filename_subquery : String :=
  "select image from Image image left outer join image.fileset as fileset left outer join fileset.usedFiles as file where file.clientPath like :filename"

/-- The sub-query returned by `OMERO_Object.__plate_query`. -/
def plate_subquery : String :=
  "select image from Plate plate left outer join plate.plateAcquisition as acquisition left outer join acquisition.wellSample as sample left outer join sample.image as image where plate.name like :plate"

/-- The sub-query returned by `OMERO_Object.__acquisition_query`. -/
def acquisition_subquery : String :=
  "select image from Plate plate left outer join plate.plateAcquisition as acquisition left outer join acquisition.wellSample as sample left outer join sample.image as image where acquisition.name like :acquisition"

/-- The sub-query returned by `OMERO_Object.__date_query`. -/
def date_subquery : String :=
  "select image from Image image left outer join image.details.creationEvent as event where event.time between :startDate and :endDate"

/-- The sub-query returned by `OMERO_Object.__tag_query`. -/
def tag_subquery : String :=
  "select image from Image image left outer join image.annotationLinks as annotations left outer join annotations.child as annotation where annotation.textValue like :tag"

/-- Python `'k' in kwargs`: whether a key occurs in the keyword mapping. -/
def hasKey (criteria : List (String × PyVal)) (k : String) : Bool :=
  criteria.any fun kv => kv.1 = k

/-- The `where` list built by `OMERO_Object.query` (source lines 108–116):
one clause is appended per membership test, in the source's order, and the
`noqc` clause is appended only when the `noqc` flag ended up `True`. -/
def whereClauses (criteria : List (String × PyVal)) (noqc : Bool) : List String :=
  (if hasKey criteria "without_tag" then ["image not in ( " ++ tag_subquery ++ " )"] else []) ++
  (if hasKey criteria "acquisition" then ["image in ( " ++ acquisition_subquery ++ " )"] else []) ++
  (if hasKey criteria "daterange" then ["image in ( " ++ date_subquery ++ " )"] else []) ++
  (if hasKey criteria "filename" then ["image in ( " ++ filename_subquery ++ " )"] else []) ++
  (if hasKey criteria "with_tag" then ["image in ( " ++ tag_subquery ++ " )"] else []) ++
  (if hasKey criteria "plate" then ["image in ( " ++ plate_subquery ++ " )"] else []) ++
  (if noqc then ["image in ( " ++ noqc_subquery ++ " )"] else [])

/-- Query construction in `OMERO_Object.query` up to source line 119: validate
the keyword arguments, then compose the list of `where` clauses that are
conjoined (joined with `" and "`) into the final query string. -/
def buildQuery (criteria : List (String × PyVal)) : Except PyErr (List String) :=
  match parseParams criteria with
  | .error e => .error e
  | .ok st => .ok (whereClauses criteria st.noqc)

/-- The composed query string of `OMERO_Object.query` (source line 119). -/
def composedQuery (clauses : List String) : String :=
  "select image from Image image where " ++ String.intercalate " and " clauses

/-- Full `OMERO_Object.query` through source line 123: after composing the
query, the call `queryService.findAllByQuery(query, params)` evaluates the
name `params`, which is not defined anywhere in the function (the local
variable is called `parameters`), so every execution that reaches this line
raises `NameError`. -/
def omeroObjectQuery (criteria : List (String × PyVal)) : Except PyErr (List Nat) :=
  match buildQuery criteria with
  | .error e => .error e
  | .ok _ => .error (.nameError "params")

/-- The seven criterion names the spec recognises (spec §4.2). -/
def recognizedKeys : List String :=
  textKeys ++ ["daterange", "noqc"]

/-- Spec-side count for claim C6, following the spec's words: the number of
recognized keys present in the criteria mapping. -/
def countRecognized (criteria : List (String × PyVal)) : Nat :=
  (criteria.filter fun kv => decide (kv.1 ∈ recognizedKeys)).length

/-- Whether a Python value is the boolean `True`. -/
def isTrueBool : PyVal → Bool
  | .bool true => true
  | _ => false

/-- Whether the criteria mapping carries `noqc=True`. -/
def noqcTrue (criteria : List (String × PyVal)) : Bool :=
  criteria.any fun kv => kv.1 == "noqc" && isTrueBool kv.2

/-- Predicate for `countRecognizedTrue`: a criterion that contributes a
clause — one of the five text keywords, `daterange`, or `noqc` with value
`True`. -/
def recPredTrue (kv : String × PyVal) : Bool :=
  decide (kv.1 ∈ textKeys) || decide (kv.1 = "daterange") ||
    (kv.1 == "noqc" && isTrueBool kv.2)

/-- Count of recognized keys present, counting `noqc` only when its value is
the boolean `True` (the code appends the `noqc` clause only in that case). -/
def countRecognizedTrue (criteria : List (String × PyVal)) : Nat :=
  (criteria.filter recPredTrue).length

/-- A text criterion is dispatched to the third branch of the loop: none of
the five names is a substring of `'noqc'` or of `'daterange'`. -/
theorem parseStep_textKey (st : ParseState) (kv : String × PyVal)
    (h : kv.1 ∈ textKeys) :
    parseStep st kv = .ok ⟨st.noqc, st.pmap ++ [kv.1]⟩ := by
  obtain ⟨k, v⟩ := kv
  simp only [textKeys, List.mem_cons, List.not_mem_nil, or_false] at h
  rcases h with h | h | h | h | h <;> subst h <;> rfl

/-- A `noqc=b` criterion just sets the flag. -/
theorem parseStep_noqc (st : ParseState) (b : Bool) :
    parseStep st ("noqc", .bool b) = .ok ⟨b, st.pmap⟩ := rfl

/-- Every `daterange` criterion makes the loop raise: a non-list value raises
the `ValueError`, a list value reaches the unbound name `datetime`. -/
theorem parseStep_daterange (st : ParseState) (v : PyVal) :
    ∃ e, parseStep st ("daterange", v) = .error e := by
  cases v with
  | bool b => exact ⟨_, rfl⟩
  | str s => exact ⟨_, rfl⟩
  | datetime t => exact ⟨_, rfl⟩
  | list xs => cases xs with
    | nil => exact ⟨_, rfl⟩
    | cons x xs => exact ⟨_, rfl⟩

/-- No raise site inside the keyword loop is the empty-criteria error. -/
theorem parseStep_error_ne_noParameters (st : ParseState) (kv : String × PyVal)
    (e : PyErr) (h : parseStep st kv = .error e) : e ≠ .noParameters := by
  intro hc
  subst hc
  unfold parseStep at h
  split at h
  · split at h <;> simp_all
  · split at h
    · split at h
      · split at h <;> simp_all
      · simp_all
    · split at h <;> simp_all

/-- An error escaping the whole keyword loop is never the empty-criteria
error. -/
theorem parseLoop_error_ne_noParameters (criteria : List (String × PyVal))
    (st : ParseState) (e : PyErr) (h : parseLoop st criteria = .error e) :
    e ≠ .noParameters := by
  induction criteria generalizing st with
  | nil => simp [parseLoop] at h
  | cons kv rest ih =>
    unfold parseLoop at h
    cases hs : parseStep st kv with
    | error e' =>
      rw [hs] at h
      cases h
      exact parseStep_error_ne_noParameters st kv e hs
    | ok st' =>
      rw [hs] at h
      exact ih st' h

/-- A successful loop step leaves `parameters.map` unchanged or appends the
processed key to it. -/
theorem parseStep_ok_pmap (st st₂ : ParseState) (kv : String × PyVal)
    (h : parseStep st kv = .ok st₂) :
    st₂.pmap = st.pmap ∨ st₂.pmap = st.pmap ++ [kv.1] := by
  unfold parseStep at h
  split at h
  · split at h
    · cases h; left; rfl
    · cases h
  · split at h
    · split at h
      · split at h <;> cases h
      · cases h
    · split at h
      · cases h; right; rfl
      · cases h

/-- The keyword loop never removes entries from `parameters.map`. -/
theorem parseLoop_pmap_mono (criteria : List (String × PyVal)) :
    ∀ st st' : ParseState, parseLoop st criteria = .ok st' →
      st.pmap.length ≤ st'.pmap.length := by
  induction criteria with
  | nil => intro st st' h; cases h; exact le_rfl
  | cons kv rest ih =>
    intro st st' h
    unfold parseLoop at h
    cases hs : parseStep st kv with
    | error e' => rw [hs] at h; cases h
    | ok st₂ =>
      rw [hs] at h
      refine le_trans ?_ (ih st₂ st' h)
      rcases parseStep_ok_pmap st st₂ kv hs with hp | hp <;> simp [hp]

/-- If some criterion uses one of the five text keywords and the loop
completes, `parameters.map` is non-empty. -/
theorem parseLoop_pmap_ne_nil (criteria : List (String × PyVal)) :
    ∀ st st' : ParseState, (∃ kv ∈ criteria, kv.1 ∈ textKeys) →
      parseLoop st criteria = .ok st' → st'.pmap ≠ [] := by
  induction criteria with
  | nil => intro st st' hmem h; simp at hmem
  | cons kv rest ih =>
    intro st st' hmem h
    unfold parseLoop at h
    obtain ⟨kv', hmem', htext⟩ := hmem
    rcases List.mem_cons.mp hmem' with hkv | hkv
    · subst hkv
      rw [parseStep_textKey st kv' htext] at h
      have hlen := parseLoop_pmap_mono rest _ _ h
      simp only [List.length_append, List.length_singleton] at hlen
      intro hnil
      rw [hnil] at hlen
      simp at hlen
    · cases hs : parseStep st kv with
      | error e' => rw [hs] at h; cases h
      | ok st₂ =>
        rw [hs] at h
        exact ih st₂ st' ⟨kv', hkv, htext⟩ h

/-- If some criterion uses the `daterange` keyword, the loop raises. -/
theorem parseLoop_daterange_error (criteria : List (String × PyVal)) :
    ∀ st : ParseState, (∃ kv ∈ criteria, kv.1 = "daterange") →
      ∃ e, parseLoop st criteria = .error e := by
  induction criteria with
  | nil => intro st hmem; simp at hmem
  | cons kv rest ih =>
    intro st hmem
    obtain ⟨kv', hmem', hdr⟩ := hmem
    rcases List.mem_cons.mp hmem' with hkv | hkv
    · subst hkv
      obtain ⟨k, v⟩ := kv'
      simp only at hdr
      subst hdr
      obtain ⟨e, he⟩ := parseStep_daterange st v
      exact ⟨e, by unfold parseLoop; rw [he]⟩
    · cases hs : parseStep st kv with
      | error e' => exact ⟨e', by unfold parseLoop; rw [hs]⟩
      | ok st₂ =>
        obtain ⟨e, he⟩ := ih st₂ ⟨kv', hkv, hdr⟩
        exact ⟨e, by unfold parseLoop; rw [hs]; exact he⟩

/-- Key membership coincides with membership in the list of keys. -/
theorem hasKey_iff_mem (criteria : List (String × PyVal)) (k : String) :
    hasKey criteria k = true ↔ k ∈ criteria.map Prod.fst := by
  simp [hasKey, List.any_eq_true, List.mem_map]

/-- A `noqc=True` entry in particular has key `noqc`. -/
theorem noqcTrue_imp_hasKey (criteria : List (String × PyVal))
    (h : noqcTrue criteria = true) : hasKey criteria "noqc" = true := by
  simp only [noqcTrue, List.any_eq_true, Bool.and_eq_true, beq_iff_eq] at h
  obtain ⟨kv, hm, hk, _⟩ := h
  simp only [hasKey, List.any_eq_true]
  exact ⟨kv, hm, by simp [hk]⟩

/-- When the keyword loop completes over criteria whose keys are all
recognized names, the final `noqc` flag is the initial flag if no `noqc`
criterion is present, and otherwise the supplied `noqc` value (criteria keys
unique, as Python keyword arguments are). -/
theorem parseLoop_noqc_flag (criteria : List (String × PyVal)) :
    ∀ st st' : ParseState,
      (∀ kv ∈ criteria, kv.1 ∈ recognizedKeys) →
      (criteria.map Prod.fst).Nodup →
      parseLoop st criteria = .ok st' →
      st'.noqc = ((st.noqc && !hasKey criteria "noqc") || noqcTrue criteria) := by
  induction criteria with
  | nil =>
    intro st st' _ _ h
    cases h
    simp [hasKey, noqcTrue]
  | cons kv rest ih =>
    intro st st' hrec hnd h
    unfold parseLoop at h
    have hk := hrec kv (List.mem_cons_self kv rest)
    have hndr : (rest.map Prod.fst).Nodup := (List.nodup_cons.mp hnd).2
    have hkv_notin : kv.1 ∉ rest.map Prod.fst := (List.nodup_cons.mp hnd).1
    have hrecr : ∀ kv' ∈ rest, kv'.1 ∈ recognizedKeys :=
      fun kv' hm => hrec kv' (List.mem_cons_of_mem kv hm)
    simp only [recognizedKeys, textKeys, List.mem_append, List.mem_cons,
      List.not_mem_nil, or_false] at hk
    obtain ⟨k, v⟩ := kv
    rcases hk with (hk | hk | hk | hk | hk) | hk | hk <;> simp only at hk <;> subst hk
    · rw [parseStep_textKey st _ (by simp [textKeys])] at h
      rw [ih _ _ hrecr hndr h]
      simp [hasKey, noqcTrue]
    · rw [parseStep_textKey st _ (by simp [textKeys])] at h
      rw [ih _ _ hrecr hndr h]
      simp [hasKey, noqcTrue]
    · rw [parseStep_textKey st _ (by simp [textKeys])] at h
      rw [ih _ _ hrecr hndr h]
      simp [hasKey, noqcTrue]
    · rw [parseStep_textKey st _ (by simp [textKeys])] at h
      rw [ih _ _ hrecr hndr h]
      simp [hasKey, noqcTrue]
    · rw [parseStep_textKey st _ (by simp [textKeys])] at h
      rw [ih _ _ hrecr hndr h]
      simp [hasKey, noqcTrue]
    · obtain ⟨e, he⟩ := parseStep_daterange st v
      rw [he] at h
      cases h
    · cases v with
      | bool b =>
        rw [parseStep_noqc st b] at h
        have hnk : hasKey rest "noqc" = false := by
          rw [Bool.eq_false_iff]
          intro hc
          exact hkv_notin ((hasKey_iff_mem rest "noqc").mp hc)
        have hnt : noqcTrue rest = false := by
          rw [Bool.eq_false_iff]
          intro hc
          rw [noqcTrue_imp_hasKey rest hc] at hnk
          cases hnk
        rw [ih _ _ hrecr hndr h]
        have h1 : hasKey (("noqc", PyVal.bool b) :: rest) "noqc" = true := by
          simp [hasKey]
        have h2 : noqcTrue (("noqc", PyVal.bool b) :: rest) = b := by
          have hcons : noqcTrue (("noqc", PyVal.bool b) :: rest) =
              ((("noqc" : String) == "noqc" && isTrueBool (PyVal.bool b)) ||
                noqcTrue rest) := rfl
          rw [hcons, hnt]
          cases b <;> rfl
        rw [h1, h2, hnk, hnt]
        simp
      | str s => cases h
      | list xs => cases h
      | datetime t => cases h

/-- The composed `where` list has one clause per membership test that fires,
plus one for the `noqc` flag. -/
theorem whereClauses_length (criteria : List (String × PyVal)) (flag : Bool) :
    (whereClauses criteria flag).length =
      (if hasKey criteria "without_tag" then 1 else 0) +
      (if hasKey criteria "acquisition" then 1 else 0) +
      (if hasKey criteria "daterange" then 1 else 0) +
      (if hasKey criteria "filename" then 1 else 0) +
      (if hasKey criteria "with_tag" then 1 else 0) +
      (if hasKey criteria "plate" then 1 else 0) +
      (if flag then 1 else 0) := by
  simp only [whereClauses, List.length_append, apply_ite List.length,
    List.length_singleton, List.length_nil]

/-- Adding a criterion with one of the five text keywords increments the
spec-side count. -/
theorem countRecognizedTrue_cons_text (k : String) (v : PyVal)
    (rest : List (String × PyVal)) (hmem : k ∈ textKeys) :
    countRecognizedTrue ((k, v) :: rest) = 1 + countRecognizedTrue rest := by
  have hp : recPredTrue (k, v) = true := by
    simp [recPredTrue, hmem]
  simp [countRecognizedTrue, List.filter_cons, hp]
  omega

/-- A leading criterion with a different key does not change key presence. -/
theorem hasKey_cons_ne (k k' : String) (v : PyVal)
    (rest : List (String × PyVal)) (h : k ≠ k') :
    hasKey ((k, v) :: rest) k' = hasKey rest k' := by
  simp [hasKey, h]

/-- A leading criterion makes its own key present. -/
theorem hasKey_cons_self (k : String) (v : PyVal)
    (rest : List (String × PyVal)) : hasKey ((k, v) :: rest) k = true := by
  simp [hasKey]

/-- A leading criterion with a key other than `noqc` does not change the
`noqc=True` test. -/
theorem noqcTrue_cons_ne (k : String) (v : PyVal)
    (rest : List (String × PyVal)) (h : k ≠ "noqc") :
    noqcTrue ((k, v) :: rest) = noqcTrue rest := by
  simp [noqcTrue, h]

/-- With unique, recognized keys and no `daterange` criterion, the spec-side
count with `noqc` counted only when `True` decomposes into the same
indicator sum the code's `where` list produces. -/
theorem countRecognizedTrue_spec (criteria : List (String × PyVal)) :
    (∀ kv ∈ criteria, kv.1 ∈ recognizedKeys) →
    (criteria.map Prod.fst).Nodup →
    hasKey criteria "daterange" = false →
    countRecognizedTrue criteria =
      (if hasKey criteria "without_tag" then 1 else 0) +
      (if hasKey criteria "acquisition" then 1 else 0) +
      (if hasKey criteria "filename" then 1 else 0) +
      (if hasKey criteria "with_tag" then 1 else 0) +
      (if hasKey criteria "plate" then 1 else 0) +
      (if noqcTrue criteria then 1 else 0) := by
  induction criteria with
  | nil =>
    intro _ _ _
    simp [countRecognizedTrue, hasKey, noqcTrue]
  | cons kv rest ih =>
    intro hrec hnd hdr
    have hk := hrec kv (List.mem_cons_self kv rest)
    have hndr : (rest.map Prod.fst).Nodup := (List.nodup_cons.mp hnd).2
    have hkv_notin : kv.1 ∉ rest.map Prod.fst := (List.nodup_cons.mp hnd).1
    have hrecr : ∀ kv' ∈ rest, kv'.1 ∈ recognizedKeys :=
      fun kv' hm => hrec kv' (List.mem_cons_of_mem kv hm)
    have hdrr : hasKey rest "daterange" = false := by
      rw [Bool.eq_false_iff] at hdr ⊢
      intro hc
      exact hdr (by simp [hasKey] at hc ⊢; tauto)
    simp only [recognizedKeys, textKeys, List.mem_append, List.mem_cons,
      List.not_mem_nil, or_false] at hk
    obtain ⟨k, v⟩ := kv
    have hrest := ih hrecr hndr hdrr
    rcases hk with (hk | hk | hk | hk | hk) | hk | hk <;> simp only at hk <;> subst hk
    · have hnotin : hasKey rest "filename" = false := by
        rw [Bool.eq_false_iff]
        exact fun hc => hkv_notin ((hasKey_iff_mem rest _).mp hc)
      rw [countRecognizedTrue_cons_text _ _ _ (by simp [textKeys]),
        hasKey_cons_ne _ _ _ _ (by decide), hasKey_cons_ne _ _ _ _ (by decide),
        hasKey_cons_self, hasKey_cons_ne _ _ _ _ (by decide),
        hasKey_cons_ne _ _ _ _ (by decide), noqcTrue_cons_ne _ _ _ (by decide),
        hrest, hnotin]
      simp
      omega
    · have hnotin : hasKey rest "plate" = false := by
        rw [Bool.eq_false_iff]
        exact fun hc => hkv_notin ((hasKey_iff_mem rest _).mp hc)
      rw [countRecognizedTrue_cons_text _ _ _ (by simp [textKeys]),
        hasKey_cons_ne _ _ _ _ (by decide), hasKey_cons_ne _ _ _ _ (by decide),
        hasKey_cons_ne _ _ _ _ (by decide), hasKey_cons_ne _ _ _ _ (by decide),
        hasKey_cons_self, noqcTrue_cons_ne _ _ _ (by decide),
        hrest, hnotin]
      simp
      omega
    · have hnotin : hasKey rest "acquisition" = false := by
        rw [Bool.eq_false_iff]
        exact fun hc => hkv_notin ((hasKey_iff_mem rest _).mp hc)
      rw [countRecognizedTrue_cons_text _ _ _ (by simp [textKeys]),
        hasKey_cons_ne _ _ _ _ (by decide), hasKey_cons_self,
        hasKey_cons_ne _ _ _ _ (by decide), hasKey_cons_ne _ _ _ _ (by decide),
        hasKey_cons_ne _ _ _ _ (by decide), noqcTrue_cons_ne _ _ _ (by decide),
        hrest, hnotin]
      simp
      omega
    · have hnotin : hasKey rest "with_tag" = false := by
        rw [Bool.eq_false_iff]
        exact fun hc => hkv_notin ((hasKey_iff_mem rest _).mp hc)
      rw [countRecognizedTrue_cons_text _ _ _ (by simp [textKeys]),
        hasKey_cons_ne _ _ _ _ (by decide), hasKey_cons_ne _ _ _ _ (by decide),
        hasKey_cons_ne _ _ _ _ (by decide), hasKey_cons_self,
        hasKey_cons_ne _ _ _ _ (by decide), noqcTrue_cons_ne _ _ _ (by decide),
        hrest, hnotin]
      simp
      omega
    · have hnotin : hasKey rest "without_tag" = false := by
        rw [Bool.eq_false_iff]
        exact fun hc => hkv_notin ((hasKey_iff_mem rest _).mp hc)
      rw [countRecognizedTrue_cons_text _ _ _ (by simp [textKeys]),
        hasKey_cons_self, hasKey_cons_ne _ _ _ _ (by decide),
        hasKey_cons_ne _ _ _ _ (by decide), hasKey_cons_ne _ _ _ _ (by decide),
        hasKey_cons_ne _ _ _ _ (by decide), noqcTrue_cons_ne _ _ _ (by decide),
        hrest, hnotin]
      simp
      omega
    · rw [hasKey_cons_self] at hdr
      cases hdr
    · have hnotin : hasKey rest "noqc" = false := by
        rw [Bool.eq_false_iff]
        exact fun hc => hkv_notin ((hasKey_iff_mem rest _).mp hc)
      have hnt : noqcTrue rest = false := by
        rw [Bool.eq_false_iff]
        intro hc
        rw [noqcTrue_imp_hasKey rest hc] at hnotin
        cases hnotin
      have hcount : countRecognizedTrue (("noqc", v) :: rest) =
          (if isTrueBool v then 1 else 0) + countRecognizedTrue rest := by
        have hp : recPredTrue ("noqc", v) = isTrueBool v := by
          simp [recPredTrue, textKeys]
        simp [countRecognizedTrue, List.filter_cons, hp]
        cases isTrueBool v <;> first | (simp; omega) | simp
      have hqt : noqcTrue (("noqc", v) :: rest) = isTrueBool v := by
        have hcons : noqcTrue (("noqc", v) :: rest) =
            ((("noqc" : String) == "noqc" && isTrueBool v) || noqcTrue rest) := rfl
        rw [hcons, hnt]
        simp
      rw [hcount, hqt,
        hasKey_cons_ne _ _ _ _ (by decide), hasKey_cons_ne _ _ _ _ (by decide),
        hasKey_cons_ne _ _ _ _ (by decide), hasKey_cons_ne _ _ _ _ (by decide),
        hasKey_cons_ne _ _ _ _ (by decide), hrest, hnt]
      simp
      omega

/-- Claim C6 counterexample: for the valid criteria mapping
`{filename: "x", noqc: False}` the composed query has a single filter clause,
while two recognized keys are present — the clause count does not equal the
number of recognized keys present. -/
theorem claim_C6_counterexample :
    (buildQuery [("filename", PyVal.str "x"), ("noqc", PyVal.bool false)]).map
        List.length = Except.ok 1 ∧
    countRecognized [("filename", PyVal.str "x"), ("noqc", PyVal.bool false)] = 2 :=
  ⟨rfl, rfl⟩

/-- Claim C6 (amended): for every criteria mapping whose keys are recognized
names, each supplied at most once, on which query construction succeeds, the
number of filter clauses conjoined into the composed query equals the number
of recognized keys present, counting `noqc` only when its value is `True`. -/
theorem claim_C6 (criteria : List (String × PyVal)) (ws : List String)
    (hrec : ∀ kv ∈ criteria, kv.1 ∈ recognizedKeys)
    (hnd : (criteria.map Prod.fst).Nodup)
    (hok : buildQuery criteria = Except.ok ws) :
    ws.length = countRecognizedTrue criteria := by
  unfold buildQuery at hok
  cases hp : parseParams criteria with
  | error e => rw [hp] at hok; cases hok
  | ok st =>
    rw [hp] at hok
    cases hok
    unfold parseParams at hp
    cases hl : parseLoop ⟨false, []⟩ criteria with
    | error e => rw [hl] at hp; cases hp
    | ok st' =>
      rw [hl] at hp
      have hp' : (if st'.pmap.length = 0 then
          (Except.error PyErr.noParameters : Except PyErr ParseState)
          else Except.ok st') = Except.ok st := hp
      by_cases hz : st'.pmap.length = 0
      · rw [if_pos hz] at hp'; cases hp'
      · rw [if_neg hz] at hp'
        injection hp' with hst
        subst hst
        have hdr : hasKey criteria "daterange" = false := by
          rw [Bool.eq_false_iff]
          intro hc
          have hmem := (hasKey_iff_mem criteria "daterange").mp hc
          rw [List.mem_map] at hmem
          obtain ⟨kv, hm, hk⟩ := hmem
          obtain ⟨e, he⟩ :=
            parseLoop_daterange_error criteria ⟨false, []⟩ ⟨kv, hm, hk⟩
          rw [he] at hl
          cases hl
        have hflag := parseLoop_noqc_flag criteria ⟨false, []⟩ st' hrec hnd hl
        simp only [Bool.false_and, Bool.false_or] at hflag
        rw [whereClauses_length, countRecognizedTrue_spec criteria hrec hnd hdr,
          hdr, hflag]
        simp

/-- Witness for claim C6 at the concrete mapping
`{with_tag: "t", noqc: True}`: construction succeeds with two clauses and two
counted keys. -/
theorem claim_C6_witness :
    (∀ kv ∈ [("with_tag", PyVal.str "t"), ("noqc", PyVal.bool true)],
        kv.1 ∈ recognizedKeys) ∧
    (([("with_tag", PyVal.str "t"), ("noqc", PyVal.bool true)].map
        Prod.fst).Nodup) ∧
    (buildQuery [("with_tag", PyVal.str "t"), ("noqc", PyVal.bool true)] =
      Except.ok ["image in ( " ++ tag_subquery ++ " )",
        "image in ( " ++ noqc_subquery ++ " )"]) ∧
    ["image in ( " ++ tag_subquery ++ " )",
        "image in ( " ++ noqc_subquery ++ " )"].length =
      countRecognizedTrue [("with_tag", PyVal.str "t"), ("noqc", PyVal.bool true)] := by
  have hrec : ∀ kv ∈ [("with_tag", PyVal.str "t"), ("noqc", PyVal.bool true)],
      kv.1 ∈ recognizedKeys := by
    intro kv hm
    rcases List.mem_cons.mp hm with h | h
    · subst h; decide
    · rcases List.mem_cons.mp h with h | h
      · subst h; decide
      · cases h
  exact ⟨hrec, by decide, rfl, claim_C6 _ _ hrec (by decide) rfl⟩

/-- Claim C7: the code contradicts the documented validation contract.  The
unrecognized key `'q'` passes validation (because `key in ('noqc')` is a
substring test against the string `'noqc'`, so `'q'` is treated as the `noqc`
flag), and a well-formed `daterange` criterion raises `NameError` because the
`datetime` module is never imported in `OMERO_BaseClasses.py`. -/
theorem claim_C7_bug :
    parseParams [("q", PyVal.bool true), ("filename", PyVal.str "f")] =
      Except.ok ⟨true, ["filename"]⟩ ∧
    parseParams [("daterange",
        PyVal.list [PyVal.datetime 0, PyVal.datetime 1])] =
      Except.error (PyErr.nameError "datetime") :=
  ⟨rfl, rfl⟩

/-- Claim C8: `noqc=True` alone raises exactly the empty-criteria validation
error, and with `noqc=True` plus at least one other recognized criterion, the
empty-criteria error is never raised. -/
theorem claim_C8 (criteria : List (String × PyVal))
    (_hno : noqcTrue criteria = true)
    (hother : ∃ kv ∈ criteria, kv.1 ∈ textKeys ∨ kv.1 = "daterange") :
    parseParams [("noqc", PyVal.bool true)] = Except.error PyErr.noParameters ∧
    parseParams criteria ≠ Except.error PyErr.noParameters := by
  refine ⟨rfl, ?_⟩
  obtain ⟨kv, hm, hcase⟩ := hother
  unfold parseParams
  rcases hcase with ht | hd
  · cases hl : parseLoop ⟨false, []⟩ criteria with
    | error e =>
      have := parseLoop_error_ne_noParameters criteria ⟨false, []⟩ e hl
      simp [this]
    | ok st =>
      have hne := parseLoop_pmap_ne_nil criteria ⟨false, []⟩ st ⟨kv, hm, ht⟩ hl
      have : st.pmap.length ≠ 0 := by
        intro hc
        exact hne (List.length_eq_zero.mp hc)
      simp [this]
  · obtain ⟨e, he⟩ :=
      parseLoop_daterange_error criteria ⟨false, []⟩ ⟨kv, hm, hd⟩
    have := parseLoop_error_ne_noParameters criteria ⟨false, []⟩ e he
    rw [he]
    simp [this]

/-- Witness for claim C8 at the concrete mapping `{noqc: True, plate: "p"}`. -/
theorem claim_C8_witness :
    noqcTrue [("noqc", PyVal.bool true), ("plate", PyVal.str "p")] = true ∧
    (∃ kv ∈ [("noqc", PyVal.bool true), ("plate", PyVal.str "p")],
        kv.1 ∈ textKeys ∨ kv.1 = "daterange") ∧
    (parseParams [("noqc", PyVal.bool true)] =
        Except.error PyErr.noParameters ∧
      parseParams [("noqc", PyVal.bool true), ("plate", PyVal.str "p")] ≠
        Except.error PyErr.noParameters) :=
  ⟨rfl,
   ⟨("plate", PyVal.str "p"), by simp, Or.inl (by decide)⟩,
   claim_C8 _ rfl ⟨("plate", PyVal.str "p"), by simp, Or.inl (by decide)⟩⟩

/-! ### The quality-check engine (`OMERO_QualityCheck`) -/

/-- SQL/HQL `LIKE` matching over character lists: `%` matches any sequence,
`_` matches exactly one character, any other pattern character matches
itself; the whole string must match (LIKE is anchored). -/
def likeChars : List Char → List Char → Bool
  | [], s => s.isEmpty
  | c :: ps, s =>
    if c = '%' then s.tails.any fun t => likeChars ps t
    else
      match s with
      | [] => false
      | d :: s' => (c = '_' || c = d) && likeChars ps s'

/-- `LIKE` matching on strings: `likeMatch pat s` is HQL
`s like pat`. -/
def likeMatch (pat s : String) : Bool :=
  likeChars pat.toList s.toList

/-- An image row of the remote object graph: its id and the text values of
its annotations. -/
structure ImageObj where
  id : Nat
  anns : List String

/-- A well of a plate: the image ids of its well samples. -/
structure WellObj where
  samples : List Nat

/-- A plate of the remote object graph: the text values of its annotations
and its wells. -/
structure PlateObj where
  anns : List String
  wells : List WellObj

/-- The server state that the eligibility query runs against. -/
structure World where
  images : List ImageObj
  plates : List PlateObj

/-- The first `not in` sub-query of `OMERO_QualityCheck.query`: images that
have an annotation whose text value is `like :qcTag` or `like :noqc`
(with `:noqc` bound to the literal `"#noqc"`). -/
def imageTagged (w : World) (imgid : Nat) (qcTag : String) : Bool :=
  w.images.any fun img =>
    img.id == imgid &&
      img.anns.any fun a => likeMatch qcTag a || likeMatch "#noqc" a

/-- The second `not in` sub-query of `OMERO_QualityCheck.query`: plates that
have an annotation whose text value is `like :noqc`. -/
def plateNoqc (p : PlateObj) : Bool :=
  p.anns.any fun a => likeMatch "#noqc" a

/-- The candidate query of `OMERO_QualityCheck.query`: rows are produced by
joining `Plate → wells → wellSamples → image`, and a row's image id is
returned when the image is not in the tagged-image sub-query and the row's
plate is not in the `#noqc`-plate sub-query. -/
def qcQuery (qcTag : String) (w : World) : List Nat :=
  w.plates.flatMap fun plate =>
    plate.wells.flatMap fun well =>
      well.samples.filter fun imgid =>
        !imageTagged w imgid qcTag && !plateNoqc plate

/-- The quality check's completion-tag sentinel,
`"#{check}_v{version}"` (`OMERO_QualityCheck.name`). -/
def qcSentinelName (qc_name qc_version : String) : String :=
  "#" ++ qc_name ++ "_v" ++ qc_version

/-- The quality check's annotation namespace,
`"{check}.qualitycheck"` (`OMERO_QualityCheck.namespace`). -/
def qcNamespaceOf (qc_name : String) : String :=
  qc_name ++ ".qualitycheck"

/-- Modelled from the claim's words for C1: no annotation tag *equal* to the
check's name on the image or its parent plate, and no `"#noqc"` tag on the
image or its plate. -/
def specEligible (qcTag : String) (w : World) (imgid : Nat) : Bool :=
  (!w.images.any fun img =>
      img.id == imgid && img.anns.any fun a => a == qcTag || a == "#noqc") &&
  (!w.plates.any fun p =>
      (p.wells.any fun well => well.samples.any fun s => s == imgid) &&
        p.anns.any fun a => a == qcTag || a == "#noqc")

/-- A world with one plate tagged with the check's own name, containing one
untagged image. -/
def plateTaggedWorld : World :=
  ⟨[⟨1, []⟩], [⟨[qcSentinelName "ContrastMeasure" "0.1"], [⟨[1]⟩]⟩]⟩

/-- Claim C1 counterexample: in `plateTaggedWorld`, the plate carries the tag
`"#ContrastMeasure_v0.1"` and its image carries no tag; the claim says such
an image must not be returned (tag on the parent plate), yet the query
returns it — a check-name tag on the plate does not exclude its images. -/
theorem claim_C1_counterexample :
    ¬ ((1 ∈ qcQuery (qcSentinelName "ContrastMeasure" "0.1") plateTaggedWorld) ↔
        specEligible (qcSentinelName "ContrastMeasure" "0.1") plateTaggedWorld 1 = true) := by
  decide

/-- Claim C1 (amended): the candidate query returns an image id iff the image
has no annotation matching (SQL LIKE) the check's name or `"#noqc"`, and some
plate reaches the image through its wells and well samples and itself has no
annotation matching `"#noqc"`.  A check-name tag on the plate does not
exclude its images, and an image contained in no plate is never returned. -/
theorem claim_C1 (qcTag : String) (w : World) (imgid : Nat) :
    imgid ∈ qcQuery qcTag w ↔
      ((¬ ∃ img ∈ w.images, img.id = imgid ∧ ∃ a ∈ img.anns,
          likeMatch qcTag a = true ∨ likeMatch "#noqc" a = true) ∧
        ∃ p ∈ w.plates, (∃ well ∈ p.wells, imgid ∈ well.samples) ∧
          ¬ ∃ a ∈ p.anns, likeMatch "#noqc" a = true) := by
  constructor
  · intro h
    simp only [qcQuery, List.mem_flatMap, List.mem_filter, Bool.and_eq_true,
      Bool.not_eq_true'] at h
    obtain ⟨p, hp, well, hw, hs, himg, hpl⟩ := h
    refine ⟨?_, p, hp, ⟨well, hw, hs⟩, ?_⟩
    · intro hc
      obtain ⟨img, hmi, hid, a, ha, hl⟩ := hc
      have : imageTagged w imgid qcTag = true := by
        simp only [imageTagged, List.any_eq_true, Bool.and_eq_true, beq_iff_eq,
          Bool.or_eq_true]
        exact ⟨img, hmi, hid, a, ha, hl⟩
      rw [this] at himg
      cases himg
    · intro hc
      obtain ⟨a, ha, hl⟩ := hc
      have : plateNoqc p = true := by
        simp only [plateNoqc, List.any_eq_true]
        exact ⟨a, ha, hl⟩
      rw [this] at hpl
      cases hpl
  · intro h
    obtain ⟨himg, p, hp, ⟨well, hw, hs⟩, hpl⟩ := h
    simp only [qcQuery, List.mem_flatMap, List.mem_filter, Bool.and_eq_true,
      Bool.not_eq_true']
    refine ⟨p, hp, well, hw, hs, ?_, ?_⟩
    · rw [Bool.eq_false_iff]
      intro hc
      simp only [imageTagged, List.any_eq_true, Bool.and_eq_true, beq_iff_eq,
        Bool.or_eq_true] at hc
      obtain ⟨img, hmi, hid, a, ha, hl⟩ := hc
      exact himg ⟨img, hmi, hid, a, ha, hl⟩
    · rw [Bool.eq_false_iff]
      intro hc
      simp only [plateNoqc, List.any_eq_true] at hc
      obtain ⟨a, ha, hl⟩ := hc
      exact hpl ⟨a, ha, hl⟩

/-- Claim C10: every image id returned by the candidate query is reachable
from some plate through its wells and well samples. -/
theorem claim_C10 (qcTag : String) (w : World) (imgid : Nat)
    (h : imgid ∈ qcQuery qcTag w) :
    ∃ p ∈ w.plates, ∃ well ∈ p.wells, imgid ∈ well.samples := by
  simp only [qcQuery, List.mem_flatMap, List.mem_filter] at h
  obtain ⟨p, hp, well, hw, hs, _⟩ := h
  exact ⟨p, hp, well, hw, hs⟩

/-- Witness for claim C10: a world with one clean plate holding image 5. -/
theorem claim_C10_witness :
    5 ∈ qcQuery "#PowerSpectrum_v0.1" ⟨[⟨5, []⟩], [⟨[], [⟨[5]⟩]⟩]⟩ ∧
    ∃ p ∈ (⟨[⟨5, []⟩], [⟨[], [⟨[5]⟩]⟩]⟩ : World).plates,
      ∃ well ∈ p.wells, 5 ∈ well.samples :=
  ⟨by decide, claim_C10 "#PowerSpectrum_v0.1" _ 5 (by decide)⟩

/-- A Python call of `OMERO_QualityCheck.query` with keyword arguments.  The
overriding method is declared `def query(self)` — no keyword parameters and
no `**kwargs` — so Python raises `TypeError` for any keyword argument. -/
def qcQueryCall (qcTag : String) (w : World) (kwargs : List (String × String)) :
    Except PyErr (List Nat) :=
  if kwargs.isEmpty then .ok (qcQuery qcTag w) else .error .typeError

/-- One step performed by a quality-check run: the per-image `check` call or
the subsequent `store` call. -/
inductive RunEvent where
  | checked (id : Nat)
  | stored (id : Nat)
  deriving DecidableEq, Repr

/-- `OMERO_QualityCheck.run`: iterates over
`self.query(without_tag=self.name)` and, for each returned object id,
invokes `check` and then `store`.  `self.query` resolves to the overriding
`OMERO_QualityCheck.query`, which accepts no keyword arguments. -/
def qcRun (qcTag : String) (w : World) : Except PyErr (List RunEvent) :=
  match qcQueryCall qcTag w [("without_tag", qcTag)] with
  | .error e => .error e
  | .ok ids => .ok (ids.flatMap fun i => [RunEvent.checked i, RunEvent.stored i])

/-- Claim C2: code bug — every invocation of `run()` raises `TypeError`
before any check or store happens, because `run` passes the keyword argument
`without_tag=self.name` to the overriding `OMERO_QualityCheck.query`, which
takes no keyword arguments. -/
theorem claim_C2_bug (qcTag : String) (w : World) :
    qcRun qcTag w = Except.error PyErr.typeError := rfl

/-! ### The `autotag` decorator and the concrete `store` methods -/

/-- An annotation object as created by the store path: a tag annotation
(`TagAnnotationWrapper`: a text value, and a namespace only if one was set)
or a map annotation (`MapAnnotationWrapper`: a namespace and the key–value
rows of the check result). -/
inductive Annotation where
  | tagAnn (value : String) (ns : Option String)
  | mapAnn (ns : Option String) (value : List (String × String))
  deriving DecidableEq, Repr

/-- The namespace carried by an annotation. -/
def annNs : Annotation → Option String
  | .tagAnn _ ns => ns
  | .mapAnn ns _ => ns

/-- A `linkAnnotation` call: the annotation linked and the image it is
linked to. -/
structure LinkAct where
  imageid : Nat
  ann : Annotation
  deriving DecidableEq, Repr

/-- The `autotag` decorator (`OMERO_QualityCheck.autotag`): before the
wrapped store body runs, it creates a tag annotation, sets its value to the
check's `name`, saves it and links it to the image — it never sets a
namespace on the tag.  `body` is whatever sequence of link actions the
wrapped store logic performs (possibly cut short by a failure). -/
def autotagActions (name : String) (imageid : Nat) (body : List LinkAct) :
    List LinkAct :=
  ⟨imageid, .tagAnn name none⟩ :: body

/-- The body of `OMERO_ContrastMeasure.store`: one map annotation carrying
the results, namespaced to the check, linked to the image
(`OMERO_SaturationCheck.store` is identical). -/
def contrastStoreBody (imageid : Nat) (results : List (String × String)) :
    List LinkAct :=
  [⟨imageid, .mapAnn (some (qcNamespaceOf "ContrastMeasure")) results⟩]

/-- `OMERO_ContrastMeasure.store` as decorated by `autotag`. -/
def contrastStore (imageid : Nat) (results : List (String × String)) :
    List LinkAct :=
  autotagActions (qcSentinelName "ContrastMeasure" "0.1") imageid
    (contrastStoreBody imageid results)

/-- Modelled from the claim's words for C3: exactly one completion tag with
value equal to the check's name and exactly one result annotation are linked
to the image, and every linked annotation is scoped to the check's
namespace. -/
def claimC3Holds (acts : List LinkAct) (imageid : Nat) (name ns : String) :
    Bool :=
  ((acts.filter fun a => a.imageid == imageid &&
      match a.ann with | .tagAnn v _ => v == name | _ => false).length == 1) &&
  ((acts.filter fun a => a.imageid == imageid &&
      match a.ann with | .mapAnn _ _ => true | _ => false).length == 1) &&
  (acts.all fun a => annNs a.ann == some ns)

/-- Claim C3 counterexample: for a concrete store call, the completion tag is
not scoped to the check's namespace (the `autotag` decorator never calls
`setNs` on the tag), so "both scoped to the check's namespace" fails. -/
theorem claim_C3_counterexample :
    ¬ claimC3Holds (contrastStore 7 [("DAPI contrast", "1.0")]) 7
        (qcSentinelName "ContrastMeasure" "0.1")
        (qcNamespaceOf "ContrastMeasure") = true := by
  decide

/-- Claim C3 (amended): every call to `OMERO_ContrastMeasure.store` links
exactly one completion tag with value equal to the check's name — carrying
no namespace — followed by one result map annotation scoped to the check's
namespace; and the `autotag` decorator links the tag before whatever the
wrapped store body does, so the tag is applied even if the body fails. -/
theorem claim_C3 (imageid : Nat) (results : List (String × String)) :
    contrastStore imageid results =
      [⟨imageid, .tagAnn (qcSentinelName "ContrastMeasure" "0.1") none⟩,
       ⟨imageid, .mapAnn (some (qcNamespaceOf "ContrastMeasure")) results⟩] ∧
    ∀ body : List LinkAct,
      autotagActions (qcSentinelName "ContrastMeasure" "0.1") imageid body =
        ⟨imageid, .tagAnn (qcSentinelName "ContrastMeasure" "0.1") none⟩ :: body :=
  ⟨rfl, fun _ => rfl⟩

/-! ### The `_reconnect` decorator -/

/-- The `_reconnect` wrapper of `OMERO_Object`.  `f n` is the outcome the
wrapped service lookup would have on its `n`-th invocation.  The source
wraps the first call in `try: return f(self) except ConnectionLostException:`
— but `ConnectionLostException` is never imported in
`OMERO_BaseClasses.py`, so as soon as the first call raises anything,
evaluating the except clause raises `NameError`; `self.connect()` and the
second call `f(self)` are never reached. -/
def reconnectWrapper {α : Type} (f : Nat → Except PyErr α) : Except PyErr α :=
  match f 0 with
  | .ok a => .ok a
  | .error _ => .error (.nameError "ConnectionLostException")

/-- Claim C9: code bug — a successful first lookup is returned unchanged,
but when the first lookup raises the connection-lost error the accessor does
not reconnect and retry (even when a second attempt would succeed): it
raises `NameError` because `ConnectionLostException` is an unbound name in
the module. -/
theorem claim_C9_bug :
    reconnectWrapper (fun _ => (Except.ok 7 : Except PyErr Nat)) = Except.ok 7 ∧
    reconnectWrapper (fun n => if n = 0 then Except.error PyErr.connectionLost
        else (Except.ok 7 : Except PyErr Nat)) =
      Except.error (PyErr.nameError "ConnectionLostException") :=
  ⟨rfl, rfl⟩

/-! ### The contrast check (`OMERO_ContrastMeasure.check`)

Machine floats are modelled as rationals; `np.percentile` with its default
linear interpolation is modelled by `percentile` below. -/

/-- Insert a value into an ascending sorted list. -/
def insertSorted (x : ℚ) : List ℚ → List ℚ
  | [] => [x]
  | y :: ys => if x ≤ y then x :: y :: ys else y :: insertSorted x ys

/-- Ascending insertion sort (numpy sorts the data before interpolating). -/
def sortQ (xs : List ℚ) : List ℚ :=
  xs.foldr insertSorted []

/-- Floor of a non-negative rational, as a natural number (the percentile
rank `h` below is always non-negative). -/
def ratFloorNat (x : ℚ) : Nat :=
  x.num.toNat / x.den

/-- `np.abs` on a rational. -/
def npAbs (x : ℚ) : ℚ :=
  if x < 0 then -x else x

/-- `np.percentile(xs, q)` with the default linear interpolation over the
flattened data: with sorted values `a 0 ≤ … ≤ a (n-1)` and
`h = (q/100)·(n-1)`, the result is `a ⌊h⌋ + (h - ⌊h⌋)·(a (⌊h⌋+1) - a ⌊h⌋)`. -/
def percentile (xs : List ℚ) (q : ℚ) : ℚ :=
  let s := sortQ xs
  let n := s.length
  if n = 0 then 0
  else
    let h : ℚ := q / 100 * ((n : ℚ) - 1)
    let lo : Nat := ratFloorNat h
    let a := s.getD lo 0
    let b := s.getD (lo + 1) a
    a + (h - (lo : ℚ)) * (b - a)

/-- The per-plane contrast value: the `"divide by zero"` sentinel, or the
numeric ratio. -/
inductive ContrastResult where
  | divideByZero
  | ratio (q : ℚ)
  deriving DecidableEq, Repr

/-- The pixel data the contrast check reads from an image: the Z/C/T sizes,
the channel labels, and the flattened pixel plane at each (z,c,t). -/
structure ImageData where
  sizeZ : Nat
  sizeC : Nat
  sizeT : Nat
  labels : List String
  planes : Nat → Nat → Nat → List ℚ

/-- `OMERO_ContrastMeasure.check`: iterate
`itertools.product(range(sizeZ), range(sizeC), range(sizeT))` and, per
plane, append `[labels[c] + " contrast", contrast]` where `contrast` is the
`"divide by zero"` sentinel when `|P50| < 1e-5` and `(P75 − P25)/P50`
otherwise. -/
def contrastCheck (img : ImageData) : List (String × ContrastResult) :=
  (List.range img.sizeZ).flatMap fun z =>
    (List.range img.sizeC).flatMap fun c =>
      (List.range img.sizeT).map fun t =>
        let plane := img.planes z c t
        let label := img.labels.getD c "" ++ " contrast"
        if npAbs (percentile plane 50) < 1 / 100000 then
          (label, ContrastResult.divideByZero)
        else
          (label, ContrastResult.ratio ((percentile plane 75 -
            percentile plane 25) / percentile plane 50))

/-- Concatenating `n` blocks of constant length `m` gives length `n * m`. -/
theorem length_range_flatMap {α : Type} (n m : Nat) (f : Nat → List α)
    (hlen : ∀ k, (f k).length = m) :
    ((List.range n).flatMap f).length = n * m := by
  induction n with
  | zero => simp
  | succ n ih =>
    rw [List.range_succ, List.flatMap_append, List.length_append, ih]
    simp [hlen, Nat.succ_mul]

/-- Indexing into a concatenation of `n` blocks of constant length `m`. -/
theorem getD_range_flatMap {α : Type} (d : α) (n m i j : Nat)
    (f : Nat → List α) (hlen : ∀ k, (f k).length = m)
    (hi : i < n) (hj : j < m) :
    ((List.range n).flatMap f).getD (i * m + j) d = (f i).getD j d := by
  induction n with
  | zero => cases hi
  | succ n ih =>
    rw [List.range_succ, List.flatMap_append]
    rcases Nat.lt_or_ge i n with hin | hin
    · rw [List.getD_append]
      · exact ih hin
      · calc i * m + j < i * m + m := by omega
          _ = (i + 1) * m := by ring
          _ ≤ n * m := Nat.mul_le_mul_right m hin
          _ = ((List.range n).flatMap f).length :=
            (length_range_flatMap n m f hlen).symm
    · have hieq : i = n := by omega
      subst hieq
      have hpre : ((List.range i).flatMap f).length = i * m :=
        length_range_flatMap i m f hlen
      rw [List.getD_append_right]
      · rw [hpre]
        have hsub : i * m + j - i * m = j := by omega
        rw [hsub]
        simp
      · rw [hpre]
        omega

/-- Indexing into a mapped range. -/
theorem getD_range_map {α : Type} (d : α) (n t : Nat) (g : Nat → α)
    (ht : t < n) :
    ((List.range n).map g).getD t d = g t := by
  rw [List.getD_eq_getElem?_getD, List.getElem?_map, List.getElem?_range ht]
  rfl

/-- Positions inside a block stay inside the concatenation. -/
theorem mul_index_lt {c cc t tt : Nat} (hc : c < cc) (ht : t < tt) :
    c * tt + t < cc * tt := by
  calc c * tt + t < c * tt + tt := by omega
    _ = (c + 1) * tt := by ring
    _ ≤ cc * tt := Nat.mul_le_mul_right tt hc

/-- Claim C4: the contrast check emits one entry per (z,c,t) plane, in the
lexicographic order of `itertools.product`, and the entry of plane (z,c,t)
is the channel label with the literal `"divide by zero"` sentinel when the
absolute value of the plane's 50th percentile is below `1e-5`, and the value
`(P75 − P25)/P50` of the plane's pixel intensities otherwise. -/
theorem claim_C4 (img : ImageData) (z c t : Nat)
    (hz : z < img.sizeZ) (hc : c < img.sizeC) (ht : t < img.sizeT) :
    (contrastCheck img).length = img.sizeZ * img.sizeC * img.sizeT ∧
    (contrastCheck img).getD (z * img.sizeC * img.sizeT + c * img.sizeT + t)
        ("", ContrastResult.divideByZero) =
      (img.labels.getD c "" ++ " contrast",
        if npAbs (percentile (img.planes z c t) 50) < 1 / 100000 then
          ContrastResult.divideByZero
        else
          ContrastResult.ratio ((percentile (img.planes z c t) 75 -
            percentile (img.planes z c t) 25) /
              percentile (img.planes z c t) 50)) := by
  have hinner : ∀ zz : Nat,
      (((List.range img.sizeC).flatMap fun cc =>
        (List.range img.sizeT).map fun tt =>
          let plane := img.planes zz cc tt
          let label := img.labels.getD cc "" ++ " contrast"
          if npAbs (percentile plane 50) < 1 / 100000 then
            (label, ContrastResult.divideByZero)
          else
            (label, ContrastResult.ratio ((percentile plane 75 -
              percentile plane 25) / percentile plane 50))).length) =
        img.sizeC * img.sizeT := by
    intro zz
    exact length_range_flatMap _ _ _ fun cc => by simp
  constructor
  · rw [contrastCheck,
      length_range_flatMap _ (img.sizeC * img.sizeT) _ hinner,
      Nat.mul_assoc]
  · rw [contrastCheck]
    have hidx : z * img.sizeC * img.sizeT + c * img.sizeT + t =
        z * (img.sizeC * img.sizeT) + (c * img.sizeT + t) := by ring
    rw [hidx,
      getD_range_flatMap _ img.sizeZ (img.sizeC * img.sizeT) z
        (c * img.sizeT + t) _ hinner hz (mul_index_lt hc ht),
      getD_range_flatMap _ img.sizeC img.sizeT c t _ (fun cc => by simp)
        hc ht,
      getD_range_map _ img.sizeT t _ ht]
    dsimp only
    by_cases hcond : npAbs (percentile (img.planes z c t) 50) < 1 / 100000
    · rw [if_pos hcond, if_pos hcond]
    · rw [if_neg hcond, if_neg hcond]

/-- A one-plane image with four pixels, used as the concrete witness. -/
def contrastWitnessImage : ImageData :=
  ⟨1, 1, 1, ["DAPI"], fun _ _ _ => [0, 1, 2, 3]⟩

/-- Witness for claim C4: on the four-pixel plane `[0, 1, 2, 3]` the
percentiles are `P25 = 3/4`, `P50 = 3/2`, `P75 = 9/4`, and the contrast is
`(9/4 − 3/4)/(3/2) = 1`. -/
theorem claim_C4_witness :
    0 < contrastWitnessImage.sizeZ ∧
    (contrastCheck contrastWitnessImage).getD 0
        ("", ContrastResult.divideByZero) =
      ("DAPI contrast", ContrastResult.ratio 1) := by
  refine ⟨by decide, ?_⟩
  have h := (claim_C4 contrastWitnessImage 0 0 0 (by decide) (by decide)
    (by decide)).2
  simp only [contrastWitnessImage] at h ⊢
  rw [h]
  simp [percentile, sortQ, insertSorted, ratFloorNat, npAbs, Int.toNat]
  norm_num

/-! ### The power-spectrum check (`OMERO_PowerSpectrum.check`)

The 2-D log power spectrum `np.log10(np.abs(np.fft.fft2(plane))**2)` is a
numeric-library computation on the pixel plane; its flattened values enter
the binning pipeline as a list `ps`, in the same row-major pixel order that
`itertools.product(range(rows), range(columns))` enumerates.  What the
repository itself implements — and what is embedded here — is the distance
computation and the radial binning. -/

/-- `int(math.ceil(0.5 * n))` for a natural `n`. -/
def midOf (n : Nat) : Nat :=
  (n + 1) / 2

/-- The squared distance of pixel `(y, x)` from the mid-point after the
source's change of variables: with `f = midcol − |x − midcol|` and
`g = midrow − |y − midrow|`, the distance is `‖(f, g)‖`, whose square is
`f² + g²`. -/
def dist2 (rows cols y x : Nat) : Nat :=
  ((midOf cols : Int) - ((x : Int) - (midOf cols : Int)).natAbs).natAbs ^ 2 +
  ((midOf rows : Int) - ((y : Int) - (midOf rows : Int)).natAbs).natAbs ^ 2

/-- The squared distances of the pixel indexes
`itertools.product(range(rows), range(columns))`, in order. -/
def distances2 (rows cols : Nat) : List Nat :=
  (List.range rows).flatMap fun y =>
    (List.range cols).map fun x => dist2 rows cols y x

/-- Ceiling of the square root of a natural number (`np.ceil` applied to a
distance, all of whose squares are natural numbers here), written as a
count so that it evaluates by kernel reduction. -/
def ceilSqrt (n : Nat) : Nat :=
  (List.range n).countP fun k => decide (k ^ 2 < n)

/-- Counting the elements of `range n` below a threshold. -/
theorem countP_range_lt (t n : Nat) :
    ((List.range n).countP fun k => decide (k < t)) = min t n := by
  induction n with
  | zero => simp
  | succ n ih =>
    rw [List.range_succ, List.countP_append, ih]
    by_cases h : n < t <;> simp [h] <;> omega

/-- `ceilSqrt n` equals `Nat.sqrt (n-1) + 1` for positive `n`. -/
theorem ceilSqrt_eq_sqrt (n : Nat) (hn : n ≠ 0) :
    ceilSqrt n = Nat.sqrt (n - 1) + 1 := by
  unfold ceilSqrt
  have hcong : ((List.range n).countP fun k => decide (k ^ 2 < n)) =
      ((List.range n).countP fun k => decide (k < Nat.sqrt (n - 1) + 1)) := by
    apply List.countP_congr
    intro k _
    have : (k ^ 2 < n) ↔ (k < Nat.sqrt (n - 1) + 1) := by
      rw [Nat.lt_succ_iff, Nat.le_sqrt']
      omega
    simp [this]
  rw [hcong, countP_range_lt]
  have hle : Nat.sqrt (n - 1) ≤ n - 1 := Nat.sqrt_le_self (n - 1)
  omega

/-- `ceilSqrt n` is the least natural number whose square is at least `n` —
it is the ceiling of the square root. -/
theorem ceilSqrt_spec (n : Nat) :
    n ≤ ceilSqrt n ^ 2 ∧ ∀ k, n ≤ k ^ 2 → ceilSqrt n ≤ k := by
  by_cases hn : n = 0
  · subst hn
    exact ⟨Nat.zero_le _, fun k _ => Nat.zero_le k⟩
  · rw [ceilSqrt_eq_sqrt n hn]
    constructor
    · have h := Nat.lt_succ_sqrt' (n - 1)
      have hs : Nat.sqrt (n - 1) + 1 = (Nat.sqrt (n - 1)).succ := rfl
      rw [hs]
      omega
    · intro k hk
      by_contra hlt
      push_neg at hlt
      have hk2 : k ≤ Nat.sqrt (n - 1) := by omega
      have hle : k ^ 2 ≤ n - 1 := Nat.le_sqrt'.mp hk2
      omega

/-- `maxdistance`: the ceiling of the largest pixel distance from the
mid-point (`np.ceil(max(distances)).astype(int)`). -/
def maxDistance (rows cols : Nat) : Nat :=
  ceilSqrt ((distances2 rows cols).foldl max 0)

/-- The pre-computed distance groups: for each pair `(a, b)` of
`zip(range(maxdistance-1), range(1, maxdistance))` — that is, `(a, a+1)` for
`a < maxdistance − 1` — the mask of pixels whose distance `d` satisfies
`a < d ≤ b`, tested on squares (`a² < d² ∧ d² ≤ b²`, equivalent for
non-negative reals). -/
def distanceGroups (rows cols : Nat) : List (List Bool) :=
  (List.range (maxDistance rows cols - 1)).map fun a =>
    (distances2 rows cols).map fun d2 =>
      decide (a ^ 2 < d2) && decide (d2 ≤ (a + 1) ^ 2)

/-- `np.mean` of a list of rationals (0 for the empty list, where numpy
would produce NaN). -/
def meanQ (xs : List ℚ) : ℚ :=
  if xs.length = 0 then 0 else xs.sum / (xs.length : ℚ)

/-- `itertools.compress(data, selectors)`: keep the data entries whose
selector is true, stopping at the shorter sequence. -/
def compress {α : Type} (xs : List α) (mask : List Bool) : List α :=
  (xs.zip mask).filterMap fun p => if p.2 then some p.1 else none

/-- The radial averaging of one plane's flattened log power spectrum `ps`
(`OMERO_PowerSpectrum.check`, inner loop): the mean of the values selected
by each pre-computed distance group. -/
def radialAverage (rows cols : Nat) (ps : List ℚ) : List ℚ :=
  (distanceGroups rows cols).map fun g => meanQ (compress ps g)

/-- Spec-side bin value for claim C5: the mean of the log power-spectrum
values of the pixels whose center distance lies in the bin `(a, a+1]`. -/
def binMean (rows cols : Nat) (ps : List ℚ) (a : Nat) : ℚ :=
  meanQ (((ps.zip (distances2 rows cols)).filter fun p =>
    decide (a ^ 2 < p.2) && decide (p.2 ≤ (a + 1) ^ 2)).map Prod.fst)

/-- Compressing by a mask computed from side data equals filtering the
zipped pairs. -/
theorem compress_map_mask {α β : Type} (xs : List α) (ys : List β)
    (f : β → Bool) :
    compress xs (ys.map f) =
      ((xs.zip ys).filter fun p => f p.2).map Prod.fst := by
  induction xs generalizing ys with
  | nil => simp [compress]
  | cons x xs ih =>
    cases ys with
    | nil => simp [compress]
    | cons y ys =>
      simp only [List.map_cons, compress, List.zip_cons_cons,
        List.filterMap_cons, List.filter_cons] at ih ⊢
      cases hf : f y
      · simpa [hf] using ih ys
      · simpa [hf] using ih ys

/-- Claim C5 counterexample: for a 4×4 single-channel plane the ceiling of
the maximum pixel distance from the center is 3 (`⌈√8⌉`), but the check
produces only 2 radial bins — the claimed bin count `ceil(max distance)` is
off by one. -/
theorem claim_C5_counterexample :
    (radialAverage 4 4 (List.replicate 16 0)).length = 2 ∧
    maxDistance 4 4 = 3 := by
  decide

/-- Claim C5 (amended): for every plane of `rows × cols` pixels with
flattened log power-spectrum values `ps`, the check produces
`ceil(max pixel distance) − 1` radial bins, bin `i` covering the half-open
distance interval `(i, i+1]`, and each bin's value is the mean of the log
power-spectrum values of the pixels whose center distance falls in that
bin.  Pixels at distance exactly 0 and pixels in the outermost band
`(maxdistance − 1, maxdistance]` fall in no bin. -/
theorem claim_C5 (rows cols : Nat) (ps : List ℚ) (i : Nat)
    (hi : i < (radialAverage rows cols ps).length) :
    (radialAverage rows cols ps).length = maxDistance rows cols - 1 ∧
    (radialAverage rows cols ps).getD i 0 = binMean rows cols ps i := by
  have hlen : (radialAverage rows cols ps).length =
      maxDistance rows cols - 1 := by
    simp [radialAverage, distanceGroups]
  refine ⟨hlen, ?_⟩
  rw [hlen] at hi
  rw [radialAverage, distanceGroups, List.map_map]
  rw [getD_range_map _ _ i _ hi]
  simp only [Function.comp]
  rw [compress_map_mask]
  rfl

/-- Witness for claim C5: the 4×4 plane with values 0,…,15; the first bin
covers distances in (0,1] (the four pixels at distance 1) and its value is
the mean of the corresponding entries. -/
theorem claim_C5_witness :
    0 < (radialAverage 4 4 ((List.range 16).map fun n => (n : ℚ))).length ∧
    ((radialAverage 4 4 ((List.range 16).map fun n => (n : ℚ))).length =
        maxDistance 4 4 - 1 ∧
      (radialAverage 4 4 ((List.range 16).map fun n => (n : ℚ))).getD 0 0 =
        binMean 4 4 ((List.range 16).map fun n => (n : ℚ)) 0) :=
  ⟨by decide, claim_C5 4 4 _ 0 (by decide)⟩

end QC
